import Mathlib

/-!
# Verification of the Fileserver synchronization client

A shallow embedding of the repository's synchronization engine
(`src/client.py`, `src/server.py`) together with a model of the remote
FTP store it talks to, and proofs of the specification's claims about it.

The client code consists of:
* `initial_sync` — a top-down walk of the local tree issuing `MKD` for
  every directory and `STOR` for every file;
* watchdog event handlers `on_created`, `on_deleted`, `on_modified`,
  `on_moved` — each derives a store-relative path by string slicing and
  issues FTP commands against a shared connection.

The remote store itself is not part of the repository sources; it is the
external collaborator of spec §2/§6 (a pyftpdlib FTP server over a real
directory).  Its semantics below is modelled from the spec.
-/

/-- A store-relative path, as the remote server resolves it: the list of
`/`-separated components of the path string the client sends. -/
abbrev RPath := List String

/-- An entry of the remote tree: a file with byte content (modelled as a
string) or a directory. -/
inductive RNode where
  | file (content : String) : RNode
  | dir : RNode
deriving DecidableEq, Repr

/-- The remote tree: an association list from paths to entries.  The root
`[]` is implicit (it always exists, it is the served directory). -/
abbrev Remote := List (RPath × RNode)

/-- Look up the entry stored at a path. -/
def rlookup (r : Remote) (p : RPath) : Option RNode :=
  match r with
  | [] => none
  | (q, n) :: rest => if q = p then some n else rlookup rest p

/-- Remove the entry at a path (all bindings for it). -/
def rerase (r : Remote) (p : RPath) : Remote :=
  r.filter (fun kv => decide (kv.1 ≠ p))

/-- Overwrite the entry at a path. -/
def rinsert (r : Remote) (p : RPath) (n : RNode) : Remote :=
  (p, n) :: rerase r p

/-- Parent path (the root `[]` is its own parent). -/
def parentOf (p : RPath) : RPath := p.dropLast

/-- Is the path a directory of the remote tree?  The root `[]` always is. -/
def isDirAt (r : Remote) (p : RPath) : Bool :=
  p = [] || (match rlookup r p with
             | some RNode.dir => true
             | _ => false)

/-- The FTP commands the client issues: `MKD`, `STOR`, `DELE`, `RMD`,
`RNFR`/`RNTO` and the `SIZE` query (`ftp.mkd`, `ftp.storbinary`,
`ftp.delete`, `ftp.rmd`, `ftp.rename`, `ftp.size` in `src/client.py`). -/
inductive Cmd where
  | mkd (p : RPath) : Cmd
  | stor (p : RPath) (content : String) : Cmd
  | delete (p : RPath) : Cmd
  | rmd (p : RPath) : Cmd
  | rename (src dst : RPath) : Cmd
  | size (p : RPath) : Cmd
deriving DecidableEq, Repr

/-- Errors a remote call can raise in the client: an FTP application
error (550-style), a transport-level error, or Python's
`FileNotFoundError` (raised by `on_moved` itself, and by `open` on a
missing local file). -/
inductive Exc where
  | ftpError : Exc
  | transportErr : Exc
  | fileNotFound : Exc
deriving DecidableEq, Repr

/-- Move every entry under `src` to the corresponding path under `dst`. -/
def renameSub (r : Remote) (src dst : RPath) : Remote :=
  r.map (fun kv =>
    if src.isPrefixOf kv.1 then (dst ++ kv.1.drop src.length, kv.2) else kv)

/-- Modelled from the spec: the Remote Store Interface of §2/§6 — the
out-of-`src/` collaborator (a pyftpdlib FTP server over a directory).
Each call "may fail with ... an application error (e.g. `path not
found`, `path exists`)":
* `MKD` fails if the path already exists or its parent is not a directory;
* `STOR` overwrites files, fails if the parent is missing or the path is
  a directory;
* `DELE` fails unless the path is an existing file;
* `RMD` fails unless the path is an existing empty directory;
* rename fails if the source is missing, the destination's parent is
  missing, or the destination exists (except file-over-file, which
  overwrites); it moves the whole subtree;
* `SIZE` fails unless the path is an existing file, and leaves the tree
  unchanged. -/
def runCmd (r : Remote) : Cmd → Except Exc Remote
  | Cmd.mkd p =>
      if (rlookup r p).isSome then Except.error Exc.ftpError
      else if isDirAt r (parentOf p) then Except.ok (rinsert r p RNode.dir)
      else Except.error Exc.ftpError
  | Cmd.stor p c =>
      if isDirAt r (parentOf p) then
        match rlookup r p with
        | some RNode.dir => Except.error Exc.ftpError
        | _ => Except.ok (rinsert r p (RNode.file c))
      else Except.error Exc.ftpError
  | Cmd.delete p =>
      match rlookup r p with
      | some (RNode.file _) => Except.ok (rerase r p)
      | _ => Except.error Exc.ftpError
  | Cmd.rmd p =>
      match rlookup r p with
      | some RNode.dir =>
          if r.any (fun kv => kv.1 ≠ p && p.isPrefixOf kv.1) then
            Except.error Exc.ftpError
          else Except.ok (rerase r p)
      | _ => Except.error Exc.ftpError
  | Cmd.rename src dst =>
      match rlookup r src with
      | none => Except.error Exc.ftpError
      | some node =>
          if isDirAt r (parentOf dst) then
            match node, rlookup r dst with
            | _, none => Except.ok (renameSub r src dst)
            | RNode.file _, some (RNode.file _) =>
                Except.ok (renameSub (rerase r dst) src dst)
            | _, _ => Except.error Exc.ftpError
          else Except.error Exc.ftpError
  | Cmd.size p =>
      match rlookup r p with
      | some (RNode.file _) => Except.ok r
      | _ => Except.error Exc.ftpError

/-- The connection state seen by the client: the remote tree plus a
fault script.  `faults` injects transport-level failures (spec §7:
"TransportError (connection-level)"): its head tells whether the next
remote call fails at the transport layer; it is consumed one entry per
call (an exhausted script means no further transport faults). -/
structure St where
  faults : List Bool
  remote : Remote
deriving DecidableEq, Repr

/-- One synchronous remote call: a scripted transport fault makes the
call fail without touching the tree; otherwise the command runs against
the remote tree and may return an application error. -/
def callFtp (s : St) (c : Cmd) : St × Option Exc :=
  match s.faults with
  | true :: rest => (⟨rest, s.remote⟩, some Exc.transportErr)
  | fs =>
      match runCmd s.remote c with
      | Except.ok r2 => (⟨fs.tail, r2⟩, none)
      | Except.error ex => (⟨fs.tail, s.remote⟩, some ex)

/-- Turn a call result into the handler's outcome: with no error the
handler continues, otherwise the exception propagates (the handlers in
`src/client.py` have no `try`/`except` around these calls, except
`on_moved`). -/
def liftCall (res : St × Option Exc) : Except Exc St :=
  match res.2 with
  | none => Except.ok res.1
  | some ex => Except.error ex

/-- The mode a local file is opened with. -/
inductive Mode where
  | read : Mode
  | write : Mode
deriving DecidableEq, Repr

/-- An observable action of the engine: opening a local file (the
`open(path, mode)` calls) or issuing a remote FTP command. -/
inductive Act where
  | localOpen (path : String) (m : Mode) : Act
  | ftp (c : Cmd) : Act
deriving DecidableEq, Repr

/-- The local filesystem as the handlers read it at apply time: the byte
content of each absolute path holding a readable file. -/
abbrev LocalFS := String → Option String

/-- A raw watchdog event (`src_path`, `is_directory`). -/
structure Event where
  src_path : String
  is_directory : Bool
deriving DecidableEq, Repr

/-- A raw watchdog move event (`src_path`, `dest_path`, `is_directory`). -/
structure MoveEvent where
  src_path : String
  dest_path : String
  is_directory : Bool
deriving DecidableEq, Repr

/-- `src/client.py` path derivation, used by every handler:
`path = event.src_path[len(client_path)+1:]` — a raw slice dropping the
watched root plus one separator character; no validation. -/
def derivePath (client_path src_path : String) : String :=
  src_path.drop (client_path.length + 1)

/-- Helper for `splitPath`: split a character list at every `/`,
accumulating the current component in reverse. -/
def splitChars : List Char → List Char → List String
  | [], acc => [String.mk acc.reverse]
  | c :: cs, acc =>
      if c = '/' then String.mk acc.reverse :: splitChars cs []
      else splitChars cs (c :: acc)

/-- The path string as the remote interprets it: its `/`-separated
components (splitting like `str.split('/')`, so an empty derived path
yields the single empty component `[""]`). -/
def splitPath (s : String) : RPath := splitChars s.1 []

/-- `on_created` (src/client.py:28-34): directories get `ftp.mkd(path)`,
files get `open(event.src_path,'rb')` then `ftp.storbinary('STOR '+path, ...)`.
Returns the handler outcome and the trace of actions performed. -/
def on_created (client_path : String) (lc : LocalFS) (s : St) (e : Event) :
    Except Exc St × List Act :=
  let p := splitPath (derivePath client_path e.src_path)
  if e.is_directory then
    (liftCall (callFtp s (Cmd.mkd p)), [Act.ftp (Cmd.mkd p)])
  else
    match lc e.src_path with
    | none => (Except.error Exc.fileNotFound, [Act.localOpen e.src_path Mode.read])
    | some content =>
        (liftCall (callFtp s (Cmd.stor p content)),
         [Act.localOpen e.src_path Mode.read, Act.ftp (Cmd.stor p content)])

/-- `on_deleted` (src/client.py:36-42): directories get `ftp.rmd(path)`,
files get `ftp.delete(path)`; no `try`/`except`. -/
def on_deleted (client_path : String) (s : St) (e : Event) :
    Except Exc St × List Act :=
  let p := splitPath (derivePath client_path e.src_path)
  if e.is_directory then
    (liftCall (callFtp s (Cmd.rmd p)), [Act.ftp (Cmd.rmd p)])
  else
    (liftCall (callFtp s (Cmd.delete p)), [Act.ftp (Cmd.delete p)])

/-- `on_modified` (src/client.py:44-49): directory modifications are
suppressed; for a file the handler re-opens `event.src_path` at apply
time and issues `ftp.storbinary('STOR '+path, ...)`. -/
def on_modified (client_path : String) (lc : LocalFS) (s : St) (e : Event) :
    Except Exc St × List Act :=
  let p := splitPath (derivePath client_path e.src_path)
  if e.is_directory then
    (Except.ok s, [])
  else
    match lc e.src_path with
    | none => (Except.error Exc.fileNotFound, [Act.localOpen e.src_path Mode.read])
    | some content =>
        (liftCall (callFtp s (Cmd.stor p content)),
         [Act.localOpen e.src_path Mode.read, Act.ftp (Cmd.stor p content)])

/-- `on_moved` (src/client.py:51-64): try `ftp.rename(src, dst)`; on any
exception print a message and, only when the event concerns a file, probe
`ftp.size(dst_path)`; if that probe also raises, raise
`FileNotFoundError`.  For a directory event a failed rename is swallowed
with no check at all. -/
def on_moved (client_path : String) (s : St) (e : MoveEvent) :
    Except Exc St × List Act :=
  let src := splitPath (derivePath client_path e.src_path)
  let dst := splitPath (derivePath client_path e.dest_path)
  match callFtp s (Cmd.rename src dst) with
  | (s1, none) => (Except.ok s1, [Act.ftp (Cmd.rename src dst)])
  | (s1, some _) =>
      if e.is_directory then
        (Except.ok s1, [Act.ftp (Cmd.rename src dst)])
      else
        match callFtp s1 (Cmd.size dst) with
        | (s2, none) =>
            (Except.ok s2, [Act.ftp (Cmd.rename src dst), Act.ftp (Cmd.size dst)])
        | (_, some _) =>
            (Except.error Exc.fileNotFound,
             [Act.ftp (Cmd.rename src dst), Act.ftp (Cmd.size dst)])

/-- A local directory tree, as `initial_sync`'s `os.walk` traverses it:
a forest of sibling entries in listing order.  `file name content rest`
and `dir name children rest` are the two kinds of entry followed by the
remaining siblings. -/
inductive Forest where
  | nil : Forest
  | file (name content : String) (rest : Forest) : Forest
  | dir (name : String) (children : Forest) (rest : Forest) : Forest
deriving DecidableEq, Repr

/-- The absolute local path of a store-relative path under the watched
root (`join` in `initial_sync`). -/
def absOf (root : String) (p : RPath) : String :=
  root ++ "/" ++ String.intercalate "/" p

/-- The `for dir_ in dirs: ftp.mkd(relative_path)` phase of one `os.walk`
tuple: an `MKD` per directory entry, in listing order. -/
def mkdActs (pre : RPath) : Forest → List Act
  | Forest.nil => []
  | Forest.file _ _ rest => mkdActs pre rest
  | Forest.dir n _ rest => Act.ftp (Cmd.mkd (pre ++ [n])) :: mkdActs pre rest

/-- The `for filename in files: ftp.storbinary('STOR '+relative_path,
open(full_path,'rb'))` phase of one `os.walk` tuple: a read-only open of
the local file followed by its `STOR`, per file entry, in listing order. -/
def storActs (root : String) (pre : RPath) : Forest → List Act
  | Forest.nil => []
  | Forest.file n c rest =>
      Act.localOpen (absOf root (pre ++ [n])) Mode.read ::
      Act.ftp (Cmd.stor (pre ++ [n]) c) :: storActs root pre rest
  | Forest.dir _ _ rest => storActs root pre rest

/-- The remainder of the top-down `os.walk`: after the current tuple is
processed, walk descends into each directory entry in order, processing
its tuple (directories first, then files) and then recursing. -/
def syncSub (root : String) (pre : RPath) : Forest → List Act
  | Forest.nil => []
  | Forest.file _ _ rest => syncSub root pre rest
  | Forest.dir n cs rest =>
      (mkdActs (pre ++ [n]) cs ++ storActs root (pre ++ [n]) cs ++
       syncSub root (pre ++ [n]) cs) ++ syncSub root pre rest

/-- One full `os.walk` stage rooted at relative path `pre` whose listing
is `ts`: the tuple's `MKD`s, then its `STOR`s, then the recursive
descent. -/
def walkF (root : String) (pre : RPath) (ts : Forest) : List Act :=
  mkdActs pre ts ++ storActs root pre ts ++ syncSub root pre ts

/-- `initial_sync` (src/client.py:16-26): `os.walk(client_path)` top-down;
for every tuple, `ftp.mkd` each directory then `ftp.storbinary` each
file, with `relative_path = full_path[len(client_path)+1:]`.  The watched
root itself is never created and the remote listing is never consulted. -/
def initial_sync (root : String) (ts : Forest) : List Act :=
  walkF root [] ts

/-- src/server.py:24: `FTPServer(("127.0.0.1", 1026), handler)` — the
bind address is a literal, independent of `argv`. -/
def server_bind (argv : List String) : String × Nat :=
  let _ := argv
  ("127.0.0.1", 1026)

/-- Python negative indexing `argv[-k]` (defined exactly when
`1 ≤ k ≤ len(argv)`). -/
def argvNeg (argv : List String) (k : Nat) : Option String :=
  if 1 ≤ k ∧ k ≤ argv.length then argv.get? (argv.length - k) else none

/-- src/server.py:9: `server_path = argv[-1]` — the only command-line
argument the server reads. -/
def server_root (argv : List String) : Option String := argvNeg argv 1

/-- Decimal digit parsing, one character. -/
def digitVal (c : Char) : Option Nat :=
  if '0' ≤ c ∧ c ≤ '9' then some (c.toNat - '0'.toNat) else none

/-- Parse the remaining digits, accumulating the value so far. -/
def parseNatChars : List Char → Nat → Option Nat
  | [], acc => some acc
  | c :: cs, acc =>
      match digitVal c with
      | some d => parseNatChars cs (acc * 10 + d)
      | none => none

/-- Python's `int(s)` for a nonempty string of decimal digits (ports are
such strings); anything else fails. -/
def parseNat (s : String) : Option Nat :=
  if s.1 = [] then none else parseNatChars s.1 0

/-- src/client.py:69-75: `port = argv[-2]; ftp.connect('localhost',
int(port))` — host and port of the client's connection. -/
def client_connect (argv : List String) : String × Option Nat :=
  ("localhost", (argvNeg argv 2).bind parseNat)

/-- The store-relative path an action targets, when it is one of the
remote commands emitted during initial reconciliation. -/
def Act.target? : Act → Option RPath
  | Act.ftp (Cmd.mkd p) => some p
  | Act.ftp (Cmd.stor p _) => some p
  | Act.ftp (Cmd.delete p) => some p
  | Act.ftp (Cmd.rmd p) => some p
  | Act.ftp (Cmd.size p) => some p
  | _ => none

/-- Does an action write to the local filesystem? -/
def Act.writesLocal : Act → Bool
  | Act.localOpen _ Mode.write => true
  | _ => false

/-- `DirOf ts n cs`: the forest `ts` has a directory entry named `n`
with children `cs` among its siblings. -/
def DirOf : Forest → String → Forest → Prop
  | Forest.nil, _, _ => False
  | Forest.file _ _ rest, n, cs => DirOf rest n cs
  | Forest.dir n2 cs2 rest, n, cs => (n = n2 ∧ cs = cs2) ∨ DirOf rest n cs

/-- Top-down ordering invariant, relative to a list `done` of actions
already emitted: wherever the trace `L` is split at an action targeting
path `q`, the `MKD` of every nonempty proper ancestor of `q` occurs in
`done` or earlier in `L`. -/
def okFrom (done L : List Act) : Prop :=
  ∀ l1 a l2 q p, L = l1 ++ a :: l2 → a.target? = some q →
    p ≠ [] → p <+: q → p ≠ q → Act.ftp (Cmd.mkd p) ∈ done ++ l1

/-- Number of remote FTP commands issued in a trace. -/
def ftpCalls (t : List Act) : Nat :=
  (t.filter (fun a => match a with | Act.ftp _ => true | _ => false)).length

/-! ## Helper lemmas -/

theorem prefix_length_lt {α : Type} {p q : List α} (h : p <+: q) (hne : p ≠ q) :
    p.length < q.length := by
  rcases h with ⟨t, rfl⟩
  rcases t with _ | ⟨x, t⟩
  · simp at hne
  · simp

theorem prefix_of_le {α : Type} {p r q : List α} (hp : p <+: q) (hr : r <+: q)
    (hlen : p.length ≤ r.length) : p <+: r := by
  have hp2 := List.prefix_iff_eq_take.mp hp
  have hr2 := List.prefix_iff_eq_take.mp hr
  have hpr : p = r.take p.length := by
    rw [hr2, List.take_take, Nat.min_eq_left hlen, ← hp2]
  rw [hpr]
  exact List.take_prefix _ _

theorem prefix_snoc_cases {α : Type} {p q : List α} {x : α} (h : p <+: q ++ [x]) :
    p <+: q ∨ p = q ++ [x] := by
  by_cases hl : p.length ≤ q.length
  · exact Or.inl (prefix_of_le h (List.prefix_append q [x]) hl)
  · right
    have h1 := h.length_le
    simp only [List.length_append, List.length_cons, List.length_nil] at h1
    exact h.eq_of_length (by simp; omega)

theorem derivePath_self (cp : String) : derivePath cp cp = "" := by
  unfold derivePath
  rw [String.drop_eq]
  have h2 : cp.length = cp.1.length := rfl
  have h : cp.1.drop (cp.length + 1) = [] := by
    apply List.drop_eq_nil_of_le
    omega
  rw [h]

theorem callFtp_ok_runCmd (s s2 : St) (c : Cmd)
    (h : liftCall (callFtp s c) = Except.ok s2) :
    runCmd s.remote c = Except.ok s2.remote := by
  rcases s with ⟨fs, r⟩
  rcases fs with _ | ⟨b, rest⟩
  · rcases hr : runCmd r c with ex | r2
    · exfalso
      simp [callFtp, liftCall, hr] at h
    · simp only [callFtp, liftCall, hr, Except.ok.injEq] at h
      rw [← h]
  · cases b
    · rcases hr : runCmd r c with ex | r2
      · exfalso
        simp [callFtp, liftCall, hr] at h
      · simp only [callFtp, liftCall, hr, Except.ok.injEq] at h
        rw [← h]
    · exfalso
      simp [callFtp, liftCall] at h

theorem rlookup_rinsert (r : Remote) (p : RPath) (n : RNode) :
    rlookup (rinsert r p n) p = some n := by
  simp [rinsert, rlookup]

theorem okFrom_nil (done : List Act) : okFrom done [] := by
  intro l1 a l2 q p hsplit
  exact absurd hsplit (by simp)

theorem okFrom_covered (done L : List Act)
    (h : ∀ a ∈ L, ∀ q, a.target? = some q →
         ∀ p, p ≠ [] → p <+: q → p ≠ q → Act.ftp (Cmd.mkd p) ∈ done) :
    okFrom done L := by
  intro l1 a l2 q p hsplit htgt hne hpre hneq
  have ha : a ∈ L := by
    rw [hsplit]
    exact List.mem_append_right _ (List.mem_cons_self _ _)
  exact List.mem_append_left _ (h a ha q htgt p hne hpre hneq)

theorem okFrom_append (done L1 L2 : List Act)
    (h1 : okFrom done L1) (h2 : okFrom (done ++ L1) L2) :
    okFrom done (L1 ++ L2) := by
  intro l1 a l2 q p hsplit htgt hne hpre hneq
  rcases List.append_eq_append_iff.mp hsplit with ⟨a2, ha2, hb2⟩ | ⟨c2, hc2, hd2⟩
  · have hm := h2 a2 a l2 q p hb2 htgt hne hpre hneq
    rw [ha2]
    simpa [List.append_assoc] using hm
  · rcases c2 with _ | ⟨x, c2⟩
    · have hL2 : L2 = a :: l2 := by simpa using hd2.symm
      have hm := h2 [] a l2 q p (by rw [hL2]; rfl) htgt hne hpre hneq
      have hl1 : l1 = L1 := by simpa using hc2.symm
      rw [hl1]
      simpa using hm
    · rw [List.cons_append] at hd2
      injection hd2 with hax hl2
      rw [← hax] at hc2
      exact h1 l1 a c2 q p hc2 htgt hne hpre hneq

/-! ## Claim theorems -/

/-- C5: the server ignores its command-line port argument — `server_bind`
is the constant `("127.0.0.1", 1026)` whatever `argv` holds — while the
client connects to exactly the port its own command line supplies
(`int(argv[-2])`); hence for any supplied port other than 1026, such as
1027, the client targets a port the server is not listening on.  This is
the divergence from the intended behaviour assumed by the repository's
test framework, which picks a free port and passes it to both sides. -/
theorem server_ignores_cli_port :
    (∀ argv : List String, server_bind argv = ("127.0.0.1", 1026)) ∧
    (client_connect ["client.py", "1027", "/tmp/dropbox/client"]).2 = some 1027 ∧
    (server_bind ["server.py", "1027", "/tmp/dropbox/server"]).2 ≠ 1027 := by
  refine ⟨fun argv => rfl, by rfl, by decide⟩

/-- C9: a `Modified` event concerning a file makes the translator emit a
`PutFile` — a read-only open of the source followed by a `STOR` of the
derived path carrying the content read at apply time — while a `Modified`
event concerning a directory is suppressed: no action at all is
performed and the connection state is unchanged. -/
theorem modified_file_putfile_dir_suppressed (cp : String) (lc : LocalFS)
    (s : St) (e : Event) (c : String) :
    (e.is_directory = true → on_modified cp lc s e = (Except.ok s, [])) ∧
    (e.is_directory = false → lc e.src_path = some c →
      (on_modified cp lc s e).2 =
        [Act.localOpen e.src_path Mode.read,
         Act.ftp (Cmd.stor (splitPath (derivePath cp e.src_path)) c)]) := by
  constructor
  · intro hd
    simp [on_modified, hd]
  · intro hd hc
    simp [on_modified, hd, hc]

theorem modified_file_putfile_dir_suppressed_witness :
    on_modified "/c" (fun _ => some "v") ⟨[], []⟩ ⟨"/c/d", true⟩ = (Except.ok ⟨[], []⟩, []) ∧
    (on_modified "/c" (fun _ => some "v") ⟨[], []⟩ ⟨"/c/f.txt", false⟩).2 =
      [Act.localOpen "/c/f.txt" Mode.read, Act.ftp (Cmd.stor ["f.txt"] "v")] := by
  constructor
  · exact (modified_file_putfile_dir_suppressed "/c" (fun _ => some "v")
      ⟨[], []⟩ ⟨"/c/d", true⟩ "v").1 rfl
  · have h := (modified_file_putfile_dir_suppressed "/c" (fun _ => some "v")
      ⟨[], []⟩ ⟨"/c/f.txt", false⟩ "v").2 rfl rfl
    rw [h]
    rfl

/-- C3 counterexample: the claimed idempotence does not exist in the code.
On a remote where `d` is already a directory, a `Created(dir d)` event
makes `on_created` raise the remote's application error (nothing swallows
it), and on a remote where `f.txt` is absent a `Deleted(file f.txt)`
event likewise raises — neither is treated as success. -/
theorem apply_existing_raises_cex :
    rlookup [(["d"], RNode.dir)] ["d"] = some RNode.dir ∧
    (on_created "/c" (fun _ => none) ⟨[], [(["d"], RNode.dir)]⟩ ⟨"/c/d", true⟩).1
      = Except.error Exc.ftpError ∧
    rlookup [] ["f.txt"] = none ∧
    (on_deleted "/c" ⟨[], []⟩ ⟨"/c/f.txt", false⟩).1 = Except.error Exc.ftpError := by
  exact ⟨rfl, rfl, rfl, rfl⟩

/-- C3 amended: the handlers perform no idempotence handling at all.
With no transport fault pending, applying `CreateDir` (`ftp.mkd`) on a
path that already exists on the remote makes `on_created` raise the
remote's application error, and applying `DeleteFile` (`ftp.delete`) on
a path already absent makes `on_deleted` raise it too: the error
propagates out of the handler instead of being treated as success. -/
theorem apply_errors_propagate (cp : String) (lc : LocalFS) (s : St) (e : Event)
    (hnf : s.faults = []) :
    (e.is_directory = true →
      (rlookup s.remote (splitPath (derivePath cp e.src_path))).isSome = true →
      (on_created cp lc s e).1 = Except.error Exc.ftpError) ∧
    (e.is_directory = false →
      rlookup s.remote (splitPath (derivePath cp e.src_path)) = none →
      (on_deleted cp s e).1 = Except.error Exc.ftpError) := by
  rcases s with ⟨fs, r⟩
  simp only at hnf
  subst hnf
  constructor
  · intro hd hex
    simp only at hex
    simp [on_created, hd, callFtp, runCmd, liftCall, hex]
  · intro hd habs
    simp only at habs
    simp [on_deleted, hd, callFtp, runCmd, liftCall, habs]

theorem apply_errors_propagate_witness :
    (on_created "/c" (fun _ => none) ⟨[], [(["d"], RNode.dir)]⟩ ⟨"/c/d", true⟩).1
      = Except.error Exc.ftpError := by
  exact (apply_errors_propagate "/c" (fun _ => none) ⟨[], [(["d"], RNode.dir)]⟩
    ⟨"/c/d", true⟩ rfl).1 rfl rfl

/-- C6 counterexample: a transport-level error is not retried.  With a
fault script injecting a single transport failure (a retry would
succeed: the same call against the same state with the fault consumed
returns success), `on_created` performs exactly one remote call and
fails permanently at once — there is no retry, no backoff, no attempt
ceiling. -/
theorem transport_error_not_retried_cex :
    (on_created "/c" (fun _ => none) ⟨[true], []⟩ ⟨"/c/d", true⟩).1
      = Except.error Exc.transportErr ∧
    ftpCalls (on_created "/c" (fun _ => none) ⟨[true], []⟩ ⟨"/c/d", true⟩).2 = 1 ∧
    (on_created "/c" (fun _ => none) ⟨[], []⟩ ⟨"/c/d", true⟩).1
      = Except.ok ⟨[], [(["d"], RNode.dir)]⟩ := by
  exact ⟨rfl, rfl, rfl⟩

/-- C6 amended: there is no retry logic at all.  Whenever the next remote
call fails at the transport level, `on_created` issues exactly one FTP
command and immediately fails with the transport error, and `on_moved`
(whose bare `except` also catches transport errors) issues one `RNFR`/
`RNTO` and falls straight into its fallback path — for a directory event
it resolves silently with a single call.  No call is ever reissued. -/
theorem transport_error_single_attempt (cp : String) (lc : LocalFS) (s : St)
    (e : Event) (me : MoveEvent) (rest : List Bool)
    (hf : s.faults = true :: rest) :
    (e.is_directory = true →
      (on_created cp lc s e).1 = Except.error Exc.transportErr ∧
      ftpCalls (on_created cp lc s e).2 = 1) ∧
    (me.is_directory = true →
      (on_moved cp s me).1 = Except.ok ⟨rest, s.remote⟩ ∧
      ftpCalls (on_moved cp s me).2 = 1) := by
  rcases s with ⟨fs, r⟩
  simp only at hf
  subst hf
  constructor
  · intro hd
    constructor
    · simp [on_created, hd, callFtp, liftCall]
    · simp [on_created, hd, ftpCalls]
  · intro hd
    constructor
    · simp [on_moved, hd, callFtp]
    · simp [on_moved, hd, callFtp, ftpCalls]

theorem transport_error_single_attempt_witness :
    (on_created "/c" (fun _ => none) ⟨[true], []⟩ ⟨"/c/d", true⟩).1
      = Except.error Exc.transportErr ∧
    ftpCalls (on_created "/c" (fun _ => none) ⟨[true], []⟩ ⟨"/c/d", true⟩).2 = 1 := by
  exact (transport_error_single_attempt "/c" (fun _ => none) ⟨[true], []⟩
    ⟨"/c/d", true⟩ ⟨"/c/a", "/c/b", true⟩ [] rfl).1 rfl

/-- C7 counterexample: path validity is not established.  For a raw
`Created(dir)` event whose path equals the watched root, the derived
store-relative path is the empty string — violating "never empty" — and
a remote `MKD` command is nevertheless issued for it. -/
theorem root_event_issues_empty_path_cex :
    derivePath "/c" "/c" = "" ∧
    (on_created "/c" (fun _ => none) ⟨[], []⟩ ⟨"/c", true⟩).2
      = [Act.ftp (Cmd.mkd (splitPath (derivePath "/c" "/c")))] := by
  exact ⟨rfl, rfl⟩

/-- C7 amended: the translator performs no validation or normalization:
every handler uses exactly the raw slice
`event.src_path[len(client_path)+1:]` as the remote path — whatever it
is — and in particular an event at the watched root itself derives the
empty path (for any watched root) and still reaches the remote as a
command argument. -/
theorem paths_sliced_unvalidated (cp : String) (lc : LocalFS) (s : St) (e : Event)
    (hd : e.is_directory = true) :
    (on_created cp lc s e).2 = [Act.ftp (Cmd.mkd (splitPath (derivePath cp e.src_path)))] ∧
    derivePath cp cp = "" := by
  constructor
  · simp [on_created, hd]
  · exact derivePath_self cp

theorem paths_sliced_unvalidated_witness :
    (on_created "/c" (fun _ => none) ⟨[], []⟩ ⟨"/c", true⟩).2
      = [Act.ftp (Cmd.mkd (splitPath (derivePath "/c" "/c")))] ∧
    derivePath "/c" "/c" = "" := by
  exact paths_sliced_unvalidated "/c" (fun _ => none) ⟨[], []⟩ ⟨"/c", true⟩ rfl

/-- C8: last-writer-wins per path.  For two `PutFile`s of the same path
applied in sequence-number order — each reading the local content at its
own apply time — once both applications succeed, the remote holds
exactly the content attached to (read by) the second operation. -/
theorem putfile_last_writer_wins (cp : String) (lc1 lc2 : LocalFS)
    (s s1 s2 : St) (e : Event) (c2 : String)
    (hd : e.is_directory = false)
    (hc2 : lc2 e.src_path = some c2)
    (_h1 : (on_modified cp lc1 s e).1 = Except.ok s1)
    (h2 : (on_modified cp lc2 s1 e).1 = Except.ok s2) :
    rlookup s2.remote (splitPath (derivePath cp e.src_path)) = some (RNode.file c2) := by
  have h2b : liftCall (callFtp s1 (Cmd.stor (splitPath (derivePath cp e.src_path)) c2))
      = Except.ok s2 := by
    simpa [on_modified, hd, hc2] using h2
  have hrun := callFtp_ok_runCmd s1 s2 _ h2b
  simp only [runCmd] at hrun
  by_cases hdir : isDirAt s1.remote (parentOf (splitPath (derivePath cp e.src_path))) = true
  · rw [if_pos hdir] at hrun
    rcases hl : rlookup s1.remote (splitPath (derivePath cp e.src_path)) with _ | node
    · rw [hl] at hrun
      simp only [Except.ok.injEq] at hrun
      rw [← hrun]
      exact rlookup_rinsert _ _ _
    · rcases node with c0 | _
      · rw [hl] at hrun
        simp only [Except.ok.injEq] at hrun
        rw [← hrun]
        exact rlookup_rinsert _ _ _
      · rw [hl] at hrun
        exact absurd hrun (by simp)
  · rw [if_neg hdir] at hrun
    exact absurd hrun (by simp)

theorem putfile_last_writer_wins_witness :
    rlookup (⟨[], [(["f.txt"], RNode.file "v2")]⟩ : St).remote
      (splitPath (derivePath "/c" "/c/f.txt")) = some (RNode.file "v2") := by
  exact putfile_last_writer_wins "/c" (fun _ => some "v1") (fun _ => some "v2")
    ⟨[], []⟩ ⟨[], [(["f.txt"], RNode.file "v1")]⟩ ⟨[], [(["f.txt"], RNode.file "v2")]⟩
    ⟨"/c/f.txt", false⟩ "v2" rfl rfl rfl rfl

/-- C1 counterexample: for a failed directory `Move`, the executor does
NOT check that the destination directory exists.  On an empty remote the
rename of `a` to `b` fails (the apply fails), the destination `b` does
not exist (the claimed destination check is inconsistent, so the claim
requires the operation to be treated as permanently failed and
reported), yet `on_moved` resolves it silently as satisfied. -/
theorem dirmove_resolved_without_check_cex :
    (callFtp ⟨[], []⟩ (Cmd.rename ["a"] ["b"])).2 = some Exc.ftpError ∧
    rlookup ([] : Remote) ["b"] = none ∧
    (on_moved "/c" ⟨[], []⟩ ⟨"/c/a", "/c/b", true⟩).1 = Except.ok ⟨[], []⟩ := by
  exact ⟨rfl, rfl, rfl⟩

/-- C1 amended: on apply failure of a `Move`, the executor's fallback is:
for a directory event, resolve silently with no destination check at
all; for a file event, probe `SIZE dst` and resolve silently exactly
when the probe succeeds (i.e. the destination exists as a file — the
size value is never compared to anything), raising `FileNotFoundError`
(permanent failure) exactly when the probe fails. -/
theorem move_fallback_shape (cp : String) (s : St) (e : MoveEvent)
    (herr : ((callFtp s (Cmd.rename (splitPath (derivePath cp e.src_path))
        (splitPath (derivePath cp e.dest_path)))).2).isSome = true) :
    (on_moved cp s e).1 =
      (if e.is_directory then
         Except.ok (callFtp s (Cmd.rename (splitPath (derivePath cp e.src_path))
           (splitPath (derivePath cp e.dest_path)))).1
       else if ((callFtp (callFtp s (Cmd.rename (splitPath (derivePath cp e.src_path))
           (splitPath (derivePath cp e.dest_path)))).1
           (Cmd.size (splitPath (derivePath cp e.dest_path)))).2).isSome = true then
         Except.error Exc.fileNotFound
       else
         Except.ok (callFtp (callFtp s (Cmd.rename (splitPath (derivePath cp e.src_path))
           (splitPath (derivePath cp e.dest_path)))).1
           (Cmd.size (splitPath (derivePath cp e.dest_path)))).1) := by
  rcases h1 : callFtp s (Cmd.rename (splitPath (derivePath cp e.src_path))
      (splitPath (derivePath cp e.dest_path))) with ⟨s1, err1⟩
  rcases err1 with _ | ex1
  · rw [h1] at herr
    simp at herr
  · cases hd : e.is_directory
    · rcases h2 : callFtp s1 (Cmd.size (splitPath (derivePath cp e.dest_path)))
        with ⟨s2, err2⟩
      rcases err2 with _ | ex2
      · simp [on_moved, h1, h2, hd]
      · simp [on_moved, h1, h2, hd]
    · simp [on_moved, h1, hd]

theorem move_fallback_shape_witness :
    (on_moved "/c" ⟨[], []⟩ ⟨"/c/a", "/c/b", true⟩).1 =
      (if (true : Bool) then
         Except.ok (callFtp ⟨[], []⟩ (Cmd.rename (splitPath (derivePath "/c" "/c/a"))
           (splitPath (derivePath "/c" "/c/b")))).1
       else if ((callFtp (callFtp ⟨[], []⟩ (Cmd.rename (splitPath (derivePath "/c" "/c/a"))
           (splitPath (derivePath "/c" "/c/b")))).1
           (Cmd.size (splitPath (derivePath "/c" "/c/b")))).2).isSome = true then
         Except.error Exc.fileNotFound
       else
         Except.ok (callFtp (callFtp ⟨[], []⟩ (Cmd.rename (splitPath (derivePath "/c" "/c/a"))
           (splitPath (derivePath "/c" "/c/b")))).1
           (Cmd.size (splitPath (derivePath "/c" "/c/b")))).1) := by
  exact move_fallback_shape "/c" ⟨[], []⟩ ⟨"/c/a", "/c/b", true⟩ rfl

theorem mkdActs_shape (pre : RPath) (ts : Forest) :
    ∀ a ∈ mkdActs pre ts, ∃ n, a = Act.ftp (Cmd.mkd (pre ++ [n])) := by
  induction ts with
  | nil => simp [mkdActs]
  | file n c rest ih =>
      intro a ha
      exact ih a (by simpa [mkdActs] using ha)
  | dir n cs rest ihcs ihrest =>
      intro a ha
      rcases List.mem_cons.mp ha with rfl | ha
      · exact ⟨n, rfl⟩
      · exact ihrest a ha

theorem storActs_shape (root : String) (pre : RPath) (ts : Forest) :
    ∀ a ∈ storActs root pre ts,
      (∃ sp, a = Act.localOpen sp Mode.read) ∨
      ∃ n c, a = Act.ftp (Cmd.stor (pre ++ [n]) c) := by
  induction ts with
  | nil => simp [storActs]
  | file n c rest ih =>
      intro a ha
      rcases List.mem_cons.mp ha with rfl | ha
      · exact Or.inl ⟨_, rfl⟩
      · rcases List.mem_cons.mp ha with rfl | ha
        · exact Or.inr ⟨n, c, rfl⟩
        · exact ih a ha
  | dir n cs rest ihcs ihrest =>
      intro a ha
      exact ihrest a (by simpa [storActs] using ha)

theorem syncSub_shape (root : String) (ts : Forest) :
    ∀ pre a, a ∈ syncSub root pre ts →
      (∃ p, a = Act.ftp (Cmd.mkd p)) ∨ (∃ sp, a = Act.localOpen sp Mode.read) ∨
      ∃ p c, a = Act.ftp (Cmd.stor p c) := by
  induction ts with
  | nil => simp [syncSub]
  | file n c rest ih =>
      intro pre a ha
      exact ih pre a (by simpa [syncSub] using ha)
  | dir n cs rest ihcs ihrest =>
      intro pre a ha
      simp only [syncSub, List.mem_append] at ha
      rcases ha with ((ha | ha) | ha) | ha
      · rcases mkdActs_shape _ _ a ha with ⟨n2, rfl⟩
        exact Or.inl ⟨_, rfl⟩
      · rcases storActs_shape _ _ _ a ha with ⟨sp, rfl⟩ | ⟨n2, c2, rfl⟩
        · exact Or.inr (Or.inl ⟨_, rfl⟩)
        · exact Or.inr (Or.inr ⟨_, _, rfl⟩)
      · exact ihcs _ a ha
      · exact ihrest pre a ha

theorem walkF_shape (root : String) (ts : Forest) (pre : RPath) (a : Act)
    (h : a ∈ walkF root pre ts) :
    (∃ p, a = Act.ftp (Cmd.mkd p)) ∨ (∃ sp, a = Act.localOpen sp Mode.read) ∨
    ∃ p c, a = Act.ftp (Cmd.stor p c) := by
  simp only [walkF, List.mem_append] at h
  rcases h with (h | h) | h
  · rcases mkdActs_shape _ _ a h with ⟨n, rfl⟩
    exact Or.inl ⟨_, rfl⟩
  · rcases storActs_shape _ _ _ a h with ⟨sp, rfl⟩ | ⟨n, c, rfl⟩
    · exact Or.inr (Or.inl ⟨_, rfl⟩)
    · exact Or.inr (Or.inr ⟨_, _, rfl⟩)
  · exact syncSub_shape root ts pre a h

/-- C2 counterexample: with an empty local tree (and the remote holding,
say, a file `a.txt`), initial reconciliation emits nothing at all — in
particular neither the `DeleteFile` nor the `RemoveDir` the claim
requires for a remotely-present, locally-absent path.  The code's
`initial_sync` never consults the remote listing. -/
theorem initial_sync_removes_nothing_cex :
    initial_sync "/c" Forest.nil = [] ∧
    Act.ftp (Cmd.delete ["a.txt"]) ∉ initial_sync "/c" Forest.nil ∧
    Act.ftp (Cmd.rmd ["a.txt"]) ∉ initial_sync "/c" Forest.nil := by
  refine ⟨rfl, ?_, ?_⟩ <;> simp [initial_sync, walkF, mkdActs, storActs, syncSub]

/-- C2 amended: initial reconciliation only mirrors the local tree onto
the remote: every action it emits is a `CreateDir` (`MKD`), a read-only
local open, or a `PutFile` (`STOR`).  It never emits `DeleteFile` or
`RemoveDir` and never queries the remote, so entries present remotely
but absent locally survive the initial sync. -/
theorem initial_sync_only_creates (root : String) (ts : Forest) (a : Act)
    (h : a ∈ initial_sync root ts) :
    (∃ p, a = Act.ftp (Cmd.mkd p)) ∨ (∃ sp, a = Act.localOpen sp Mode.read) ∨
    ∃ p c, a = Act.ftp (Cmd.stor p c) := by
  exact walkF_shape root ts [] a h

theorem initial_sync_only_creates_witness :
    (∃ p, Act.ftp (Cmd.mkd ["a"]) = Act.ftp (Cmd.mkd p)) ∨
    (∃ sp, Act.ftp (Cmd.mkd ["a"]) = Act.localOpen sp Mode.read) ∨
    ∃ p c, Act.ftp (Cmd.mkd ["a"]) = Act.ftp (Cmd.stor p c) := by
  exact initial_sync_only_creates "/c" (Forest.dir "a" Forest.nil Forest.nil)
    (Act.ftp (Cmd.mkd ["a"])) (by decide)

/-- C10: the engine never writes to the local filesystem.  Every action
performed by initial reconciliation or by any event handler — on any
local tree, connection state and raw event — is either a remote FTP
command or a local open in read-only mode (`open(..., 'rb')`); no
local-write action exists in any trace, so the local tree is left
unchanged. -/
theorem engine_never_writes_local (root cp : String) (ts : Forest) (lc : LocalFS)
    (s : St) (e : Event) (me : MoveEvent) (a : Act)
    (h : a ∈ initial_sync root ts ∨ a ∈ (on_created cp lc s e).2 ∨
         a ∈ (on_deleted cp s e).2 ∨ a ∈ (on_modified cp lc s e).2 ∨
         a ∈ (on_moved cp s me).2) :
    a.writesLocal = false := by
  rcases h with h | h | h | h | h
  · rcases walkF_shape root ts [] a h with ⟨p, rfl⟩ | ⟨sp, rfl⟩ | ⟨p, c, rfl⟩ <;> rfl
  · cases hd : e.is_directory
    · rcases hlc : lc e.src_path with _ | c
      · simp only [on_created, hd, hlc] at h
        simp at h
        rw [h]
        rfl
      · simp only [on_created, hd, hlc] at h
        simp at h
        rcases h with rfl | rfl <;> rfl
    · simp only [on_created, hd] at h
      simp at h
      rw [h]
      rfl
  · cases hd : e.is_directory <;>
      · simp only [on_deleted, hd] at h
        simp at h
        rw [h]
        rfl
  · cases hd : e.is_directory
    · rcases hlc : lc e.src_path with _ | c
      · simp only [on_modified, hd, hlc] at h
        simp at h
        rw [h]
        rfl
      · simp only [on_modified, hd, hlc] at h
        simp at h
        rcases h with rfl | rfl <;> rfl
    · simp only [on_modified, hd] at h
      simp at h
  · rcases h1 : callFtp s (Cmd.rename (splitPath (derivePath cp me.src_path))
        (splitPath (derivePath cp me.dest_path))) with ⟨s1, err1⟩
    rcases err1 with _ | ex1
    · simp only [on_moved, h1] at h
      simp at h
      rw [h]
      rfl
    · cases hd : me.is_directory
      · rcases h2 : callFtp s1 (Cmd.size (splitPath (derivePath cp me.dest_path)))
          with ⟨s2, err2⟩
        rcases err2 with _ | ex2 <;>
          · simp only [on_moved, h1, h2, hd] at h
            simp at h
            rcases h with rfl | rfl <;> rfl
      · simp only [on_moved, h1, hd] at h
        simp at h
        rw [h]
        rfl

theorem engine_never_writes_local_witness :
    (Act.ftp (Cmd.mkd ["d"])).writesLocal = false := by
  exact engine_never_writes_local "/c" "/c" Forest.nil (fun _ => none)
    ⟨[], []⟩ ⟨"/c/d", true⟩ ⟨"/c/a", "/c/b", true⟩ (Act.ftp (Cmd.mkd ["d"]))
    (Or.inr (Or.inl (by decide)))

theorem covered_at_level (done : List Act) (pre q : RPath) (n : String)
    (hq : q = pre ++ [n])
    (h1 : ∀ p, p ≠ [] → p <+: pre → Act.ftp (Cmd.mkd p) ∈ done)
    (p : RPath) (hne : p ≠ []) (hpre : p <+: q) (hneq : p ≠ q) :
    Act.ftp (Cmd.mkd p) ∈ done := by
  subst hq
  have hlt : p.length < (pre ++ [n]).length := prefix_length_lt hpre hneq
  have hle : p.length ≤ pre.length := by
    simp only [List.length_append, List.length_cons, List.length_nil] at hlt
    omega
  exact h1 p hne (prefix_of_le hpre (List.prefix_append pre [n]) hle)

theorem okFrom_mkdActs (done : List Act) (pre : RPath) (ts : Forest)
    (h1 : ∀ p, p ≠ [] → p <+: pre → Act.ftp (Cmd.mkd p) ∈ done) :
    okFrom done (mkdActs pre ts) := by
  apply okFrom_covered
  intro a ha q htgt p hne hpre hneq
  rcases mkdActs_shape pre ts a ha with ⟨n, rfl⟩
  have hq : q = pre ++ [n] := by
    simp only [Act.target?, Option.some.injEq] at htgt
    exact htgt.symm
  exact covered_at_level done pre q n hq h1 p hne hpre hneq

theorem okFrom_storActs (done : List Act) (root : String) (pre : RPath) (ts : Forest)
    (h1 : ∀ p, p ≠ [] → p <+: pre → Act.ftp (Cmd.mkd p) ∈ done) :
    okFrom done (storActs root pre ts) := by
  apply okFrom_covered
  intro a ha q htgt p hne hpre hneq
  rcases storActs_shape root pre ts a ha with ⟨sp, rfl⟩ | ⟨n, c, rfl⟩
  · simp [Act.target?] at htgt
  · have hq : q = pre ++ [n] := by
      simp only [Act.target?, Option.some.injEq] at htgt
      exact htgt.symm
    exact covered_at_level done pre q n hq h1 p hne hpre hneq

theorem dirOf_mem_mkdActs (pre : RPath) (ts : Forest) (n : String) (cs : Forest)
    (h : DirOf ts n cs) : Act.ftp (Cmd.mkd (pre ++ [n])) ∈ mkdActs pre ts := by
  induction ts with
  | nil => exact absurd h (fun hf => hf)
  | file n2 c rest ih => exact ih h
  | dir n2 cs2 rest ihcs ihrest =>
      have h2 : (n = n2 ∧ cs = cs2) ∨ DirOf rest n cs := h
      rcases h2 with ⟨rfl, rfl⟩ | h2
      · exact List.mem_cons_self _ _
      · exact List.mem_cons_of_mem _ (ihrest h2)

theorem syncSub_okFrom (root : String) (ts : Forest) :
    ∀ pre done,
    (∀ p, p ≠ [] → p <+: pre → Act.ftp (Cmd.mkd p) ∈ done) →
    (∀ n cs, DirOf ts n cs → Act.ftp (Cmd.mkd (pre ++ [n])) ∈ done) →
    okFrom done (syncSub root pre ts) := by
  induction ts with
  | nil =>
      intro pre done _ _
      exact okFrom_nil done
  | file n c rest ih =>
      intro pre done h1 h2
      exact ih pre done h1 (fun n2 cs2 hd => h2 n2 cs2 hd)
  | dir n cs rest ihcs ihrest =>
      intro pre done h1 h2
      have hself : DirOf (Forest.dir n cs rest) n cs := Or.inl ⟨rfl, rfl⟩
      have h1b : ∀ p, p ≠ [] → p <+: pre ++ [n] → Act.ftp (Cmd.mkd p) ∈ done := by
        intro p hp hpre
        rcases prefix_snoc_cases hpre with hc | rfl
        · exact h1 p hp hc
        · exact h2 n cs hself
      have hM : okFrom done (mkdActs (pre ++ [n]) cs) :=
        okFrom_mkdActs done (pre ++ [n]) cs h1b
      have hS : okFrom (done ++ mkdActs (pre ++ [n]) cs)
          (storActs root (pre ++ [n]) cs) :=
        okFrom_storActs _ root (pre ++ [n]) cs
          (fun p hp hpre => List.mem_append_left _ (h1b p hp hpre))
      have hC : okFrom ((done ++ mkdActs (pre ++ [n]) cs) ++ storActs root (pre ++ [n]) cs)
          (syncSub root (pre ++ [n]) cs) :=
        ihcs (pre ++ [n]) _
          (fun p hp hpre =>
            List.mem_append_left _ (List.mem_append_left _ (h1b p hp hpre)))
          (fun n2 cs2 hd =>
            List.mem_append_left _ (List.mem_append_right _
              (dirOf_mem_mkdActs (pre ++ [n]) cs n2 cs2 hd)))
      have hR : okFrom (((done ++ mkdActs (pre ++ [n]) cs) ++ storActs root (pre ++ [n]) cs)
            ++ syncSub root (pre ++ [n]) cs)
          (syncSub root pre rest) :=
        ihrest pre _
          (fun p hp hpre =>
            List.mem_append_left _ (List.mem_append_left _
              (List.mem_append_left _ (h1 p hp hpre))))
          (fun n2 cs2 hd =>
            List.mem_append_left _ (List.mem_append_left _
              (List.mem_append_left _ (h2 n2 cs2 (Or.inr hd)))))
      have hfin := okFrom_append done _ _ hM
        (okFrom_append _ _ _ hS (okFrom_append _ _ _ hC hR))
      have heq : syncSub root pre (Forest.dir n cs rest) =
          mkdActs (pre ++ [n]) cs ++ (storActs root (pre ++ [n]) cs ++
          (syncSub root (pre ++ [n]) cs ++ syncSub root pre rest)) := by
        simp [syncSub]
      rw [heq]
      exact hfin

theorem walkF_okFrom (root : String) (ts : Forest) (pre : RPath) (done : List Act)
    (h1 : ∀ p, p ≠ [] → p <+: pre → Act.ftp (Cmd.mkd p) ∈ done) :
    okFrom done (walkF root pre ts) := by
  have hM : okFrom done (mkdActs pre ts) := okFrom_mkdActs done pre ts h1
  have hS : okFrom (done ++ mkdActs pre ts) (storActs root pre ts) :=
    okFrom_storActs _ root pre ts
      (fun p hp hpre => List.mem_append_left _ (h1 p hp hpre))
  have hC : okFrom ((done ++ mkdActs pre ts) ++ storActs root pre ts)
      (syncSub root pre ts) :=
    syncSub_okFrom root ts pre _
      (fun p hp hpre =>
        List.mem_append_left _ (List.mem_append_left _ (h1 p hp hpre)))
      (fun n2 cs2 hd =>
        List.mem_append_left _ (List.mem_append_right _
          (dirOf_mem_mkdActs pre ts n2 cs2 hd)))
  have hfin := okFrom_append done _ _ hM (okFrom_append _ _ _ hS hC)
  have heq : walkF root pre ts =
      mkdActs pre ts ++ (storActs root pre ts ++ syncSub root pre ts) := by
    simp [walkF]
  rw [heq]
  exact hfin

/-- C4: top-down creation.  Wherever the initial-reconciliation trace is
split at a remote operation targeting path `q`, the `MKD` of every
nonempty proper ancestor `p` of `q` has already been emitted strictly
earlier in the trace — in particular a directory's create precedes every
operation on its children, so `STOR a/b.txt` never precedes `MKD a`. -/
theorem initial_sync_parent_dir_first (root : String) (ts : Forest)
    (l1 l2 : List Act) (a : Act) (q p : RPath)
    (hsplit : initial_sync root ts = l1 ++ a :: l2)
    (htgt : a.target? = some q)
    (hne : p ≠ []) (hpre : p <+: q) (hneq : p ≠ q) :
    Act.ftp (Cmd.mkd p) ∈ l1 := by
  have hok : okFrom [] (initial_sync root ts) := by
    apply walkF_okFrom
    intro p2 hp2 hpre2
    rcases hpre2 with ⟨t, ht⟩
    exact absurd (List.append_eq_nil.mp ht).1 hp2
  have hmem := hok l1 a l2 q p hsplit htgt hne hpre hneq
  simpa using hmem

theorem initial_sync_parent_dir_first_witness :
    Act.ftp (Cmd.mkd ["a"]) ∈
      [Act.ftp (Cmd.mkd ["a"]), Act.localOpen "/c/a/b.txt" Mode.read] := by
  exact initial_sync_parent_dir_first "/c"
    (Forest.dir "a" (Forest.file "b.txt" "x" Forest.nil) Forest.nil)
    [Act.ftp (Cmd.mkd ["a"]), Act.localOpen "/c/a/b.txt" Mode.read] []
    (Act.ftp (Cmd.stor ["a", "b.txt"] "x")) ["a", "b.txt"] ["a"]
    (by decide) rfl (by decide) ⟨["b.txt"], rfl⟩ (by decide)
